import Mathlib

/-!
Shallow embedding of `gen_vectors.py`, a script that generates BLAKE2s test
vectors: a fixed 32-byte key, a sweep over salt lengths 1..8, a sweep over
personalization (persona) lengths 1..8, and a JSON array of 16 records
written to a file given on the command line.

The BLAKE2s hash itself is an external collaborator (the `pyblake2` module);
it is modelled as an arbitrary function parameter `B : Blake2sFun` taking
(data, key, salt, person) byte strings to a digest byte string, mirroring the
keyword arguments used at the call sites `blake2s(key=…, salt=…)` and
`blake2s(key=…, person=…)` (where `data` defaults to the empty byte string).

Bytes are modelled as `Nat` (real byte strings have every entry < 256; this
bound appears as a hypothesis where it matters). File and process effects are
modelled explicitly: the sequence of `fd.write` calls becomes a list of
strings (`writePlan`), and the CLI entry point becomes a function from the
argument vector to a result record (stdout text, exit code, file written).
For the error-path claims, writes are made fallible via an oracle
`fail : Nat → Bool` telling whether the k-th `write` call raises, and the
control flow of `main` (which has no try/finally) is followed literally.
-/

/-- Type of the external BLAKE2s collaborator: `B data key salt person` is the
digest (a byte string) of `data` under the given key, salt and
personalization. -/
def Blake2sFun : Type := List Nat → List Nat → List Nat → List Nat → List Nat

/-- Lowercase hexadecimal digit character for a nibble, as produced by
Python's `%x` formatting (used by `bytearray.hex()`). -/
def hexDigit (n : Nat) : Char :=
  Char.ofNat (if n < 10 then 48 + n else 87 + n)

/-- Two hex characters encoding one byte, high nibble first. -/
def hexByte (b : Nat) : List Char :=
  [hexDigit (b / 16), hexDigit (b % 16)]

/-- Python's `bytearray.hex()`: lowercase hex encoding of a byte string. -/
def bytesHex (bs : List Nat) : String :=
  String.mk (bs.map hexByte).flatten

/-- Numeric value of one hexadecimal character (0 on non-hex input). -/
def hexVal (c : Char) : Nat :=
  if 48 ≤ c.toNat ∧ c.toNat ≤ 57 then c.toNat - 48
  else if 97 ≤ c.toNat ∧ c.toNat ≤ 102 then c.toNat - 87
  else if 65 ≤ c.toNat ∧ c.toNat ≤ 70 then c.toNat - 55
  else 0

/-- Decode a character list two characters at a time into bytes. -/
def decodePairs : List Char → List Nat
  | c1 :: c2 :: rest => (hexVal c1 * 16 + hexVal c2) :: decodePairs rest
  | _ => []

/-- Hex-decoding of a string into a byte string, used to state the spec's
"field hex-decodes to …" properties. -/
def hexDecode (s : String) : List Nat :=
  decodePairs s.data

/-- Python's `bytearray(range(n))`: the byte string 0, 1, …, n-1. -/
def byteRange (n : Nat) : List Nat :=
  List.range n

/-- Source `key_bytes = bytearray(range(32))`. -/
def key_bytes : List Nat :=
  byteRange 32

/-- One generated test-vector record; field names follow the JSON keys emitted
by the source (`in` is a Lean keyword, hence `in_`). -/
structure TestCase where
  hash : String
  in_ : String
  key : String
  persona : String
  salt : String
  out : String

deriving instance DecidableEq for TestCase

instance : Inhabited TestCase :=
  ⟨⟨"", "", "", "", "", ""⟩⟩

/-- Record built in the first loop of `main` (salt sweep) at index `i`:
`blake2s(key=key_bytes, salt=salt_bytes)` hashes the empty message with
empty persona. -/
def saltTest (B : Blake2sFun) (i : Nat) : TestCase :=
  { hash := "blake2s"
    in_ := ""
    key := bytesHex key_bytes
    persona := ""
    salt := bytesHex (byteRange (i + 1))
    out := bytesHex (B [] key_bytes (byteRange (i + 1)) []) }

/-- Record built in the second loop of `main` (persona sweep) at index `i`:
`blake2s(key=key_bytes, person=persona_bytes)` hashes the empty message with
empty salt. -/
def personaTest (B : Blake2sFun) (i : Nat) : TestCase :=
  { hash := "blake2s"
    in_ := ""
    key := bytesHex key_bytes
    persona := bytesHex (byteRange (i + 1))
    salt := ""
    out := bytesHex (B [] key_bytes [] (byteRange (i + 1))) }

/-- All 16 records in construction order: the 8 salt-sweep records (i = 0..7)
followed by the 8 persona-sweep records (i = 0..7). -/
def records (B : Blake2sFun) : List TestCase :=
  (List.range 8).map (saltTest B) ++ (List.range 8).map (personaTest B)

/-- Four lowercase hex characters for a 16-bit value, as in Python's
`\u` escapes. -/
def hex4 (n : Nat) : List Char :=
  [hexDigit (n / 4096 % 16), hexDigit (n / 256 % 16), hexDigit (n / 16 % 16),
    hexDigit (n % 16)]

/-- JSON escaping of one character as done by Python's `json.dumps` with its
default `ensure_ascii=True`: the two-character escapes for quote, backslash
and the common control characters, `\uXXXX` for every other character outside
printable ASCII (with surrogate pairs above U+FFFF), and the character itself
otherwise. -/
def escapeChar (c : Char) : List Char :=
  if c = Char.ofNat 34 then [Char.ofNat 92, Char.ofNat 34]
  else if c = Char.ofNat 92 then [Char.ofNat 92, Char.ofNat 92]
  else if c = Char.ofNat 8 then [Char.ofNat 92, 'b']
  else if c = Char.ofNat 9 then [Char.ofNat 92, 't']
  else if c = Char.ofNat 10 then [Char.ofNat 92, 'n']
  else if c = Char.ofNat 12 then [Char.ofNat 92, 'f']
  else if c = Char.ofNat 13 then [Char.ofNat 92, 'r']
  else if 32 ≤ c.toNat ∧ c.toNat ≤ 126 then [c]
  else if c.toNat < 65536 then Char.ofNat 92 :: 'u' :: hex4 c.toNat
  else
    Char.ofNat 92 :: 'u' :: hex4 (55296 + (c.toNat - 65536) / 1024) ++
      Char.ofNat 92 :: 'u' :: hex4 (56320 + (c.toNat - 65536) % 1024)

/-- JSON escaping of a whole string. -/
def jsonEscape (s : String) : String :=
  String.mk (s.data.map escapeChar).flatten

/-- JSON serialization of a string value, with surrounding quotes. -/
def jstr (s : String) : String :=
  "\"" ++ jsonEscape s ++ "\""

/-- Python's `json.dumps(test, indent=True)` for one record: `True` is the
int 1, so each key/value pair sits on its own line indented by one space, the
pairs separated by commas, in the dict's insertion order
hash, in, key, persona, salt, out. -/
def jsonDumps (t : TestCase) : String :=
  "\x7b\n \"hash\": " ++ jstr t.hash ++
    ",\n \"in\": " ++ jstr t.in_ ++
    ",\n \"key\": " ++ jstr t.key ++
    ",\n \"persona\": " ++ jstr t.persona ++
    ",\n \"salt\": " ++ jstr t.salt ++
    ",\n \"out\": " ++ jstr t.out ++ "\n\x7d"

/-- The successive strings passed to `fd.write` by `main`, in order: the
opening bracket line, one string per salt-sweep record (each followed by a
comma and newline), one string per persona-sweep record (a comma after all
but the last, then a newline), and the closing bracket. 18 writes in all. -/
def writePlan (B : Blake2sFun) : List String :=
  "[\n" ::
    ((List.range 8).map fun i => jsonDumps (saltTest B i) ++ ",\n") ++
    ((List.range 8).map fun i =>
      jsonDumps (personaTest B i) ++ (if i < 7 then "," else "") ++ "\n") ++
    ["]"]

/-- The full byte content written to the output file on a successful run. -/
def output (B : Blake2sFun) : String :=
  String.join (writePlan B)

/-- Observable result of one process invocation: text printed to standard
output, the process exit code, and the file written (path and content), if
any. -/
structure RunResult where
  stdout : String
  exitCode : Nat
  fileWritten : Option (String × String)

deriving instance DecidableEq for RunResult

/-- Usage string printed on a missing argument. -/
def usageMsg : String :=
  "Usage: gen_vectors.py <path to output file>"

/-- The `__main__` block: with fewer than two entries in `sys.argv` (i.e. no
path argument after the program name) it prints the usage string and exits
with status 1 touching no file; otherwise it runs `main(sys.argv[1])`, which
writes the output and ends with the interpreter's default exit status 0. -/
def progMain (B : Blake2sFun) (argv : List String) : RunResult :=
  match argv with
  | _ :: path :: _ =>
    { stdout := "", exitCode := 0, fileWritten := some (path, output B) }
  | _ =>
    { stdout := usageMsg ++ "\n", exitCode := 1, fileWritten := none }

/-- Content of the written file, when one was written. -/
def fileContent (r : RunResult) : Option String :=
  r.fileWritten.map Prod.snd

/-- State of the open file descriptor in the fallible model: bytes
successfully written so far, number of `write` calls attempted so far, and
whether `close` has run. -/
structure FdState where
  content : String
  attempts : Nat
  closed : Bool

deriving instance DecidableEq for FdState

/-- Run the write sequence against a fallible file: the oracle `fail` says
whether the k-th write call raises. A raising write counts as attempted,
appends nothing, and aborts the sequence (the exception propagates). -/
def runWrites (fail : Nat → Bool) : List String → FdState → Except FdState FdState
  | [], st => .ok st
  | s :: rest, st =>
    if fail st.attempts then
      .error { st with attempts := st.attempts + 1 }
    else
      runWrites fail rest
        { content := st.content ++ s, attempts := st.attempts + 1,
          closed := st.closed }

/-- The body of `main` after a successful `open`, with fallible writes.
`main` has no try/finally and no `with` block: `fd.close()` runs only after
the last write returns, so an exception from any write leaves the function
with the handle still open. -/
def mainFallible (B : Blake2sFun) (fail : Nat → Bool) : Except FdState FdState :=
  match runWrites fail (writePlan B) { content := "", attempts := 0, closed := false } with
  | .error st => .error st
  | .ok st => .ok { st with closed := true }

/-- One full fallible run of `main`: if the `open` itself raises, nothing is
written and nothing is closed; otherwise the write sequence runs. No
exception handler exists anywhere in the program, so an `.error` outcome is
exactly an exception reaching the process boundary. -/
def fallibleProg (B : Blake2sFun) (openRaises : Bool) (fail : Nat → Bool) :
    Except FdState FdState :=
  if openRaises then .error { content := "", attempts := 0, closed := false }
  else mainFallible B fail

/-- Whether the run ended with the file handle closed, on either outcome. -/
def resultClosed : Except FdState FdState → Bool
  | .error st => st.closed
  | .ok st => st.closed

/-- Whether the run completed without an exception. -/
def resultIsOk : Except FdState FdState → Bool
  | .error _ => false
  | .ok _ => true

/-- Serialization of a JSON array from already-serialized elements, following
the spec's words: elements separated by commas, no trailing comma after the
last element (the newline placement matches the generator's layout). -/
def sepByCommaNL : List String → String
  | [] => ""
  | [s] => s
  | s :: rest => s ++ ",\n" ++ sepByCommaNL rest

/-- Concrete stand-in for the BLAKE2s collaborator, used to instantiate
universally quantified theorems at a computable point. -/
def Bzero : Blake2sFun :=
  fun _ _ _ _ => List.range 32

/-! ### Helper lemmas -/

/-- Folding string concatenation from an arbitrary accumulator factors the
accumulator out in front. -/
theorem strFoldl_append (l : List String) :
    ∀ a : String, l.foldl (fun r s => r ++ s) a = a ++ l.foldl (fun r s => r ++ s) "" := by
  induction l with
  | nil => intro a; simp [String.append_empty]
  | cons x xs ih =>
    intro a
    simp only [List.foldl_cons]
    rw [ih (a ++ x), ih ("" ++ x), String.empty_append, String.append_assoc]

/-- Unfolding lemma for `String.join` on a cons cell. -/
theorem strJoin_cons (s : String) (l : List String) :
    String.join (s :: l) = s ++ String.join l := by
  simp only [String.join, List.foldl_cons]
  rw [strFoldl_append l ("" ++ s), String.empty_append]

/-- The hex digit characters decode back to their nibble values. -/
theorem hexVal_hexDigit : ∀ n, n < 16 → hexVal (hexDigit n) = n := by decide

/-- Hex decoding inverts the hex encoding on genuine byte strings. -/
theorem hexDecode_bytesHex (bs : List Nat) (h : ∀ b ∈ bs, b < 256) :
    hexDecode (bytesHex bs) = bs := by
  induction bs with
  | nil => rfl
  | cons b rest ih =>
    have hb : b < 256 := h b (by simp)
    have hrest : ∀ x ∈ rest, x < 256 := fun x hx => h x (by simp [hx])
    have h1 : b / 16 < 16 := by omega
    have h2 : b % 16 < 16 := by omega
    have key : hexDecode (bytesHex (b :: rest)) =
        (hexVal (hexDigit (b / 16)) * 16 + hexVal (hexDigit (b % 16))) ::
          hexDecode (bytesHex rest) := rfl
    rw [key, hexVal_hexDigit _ h1, hexVal_hexDigit _ h2, ih hrest]
    congr 1
    omega

/-- Every entry of `byteRange n` is below `n`. -/
theorem byteRange_lt (n : Nat) : ∀ b ∈ byteRange n, b < n := by
  intro b hb
  simpa [byteRange] using hb

/-- The write plan always consists of exactly 18 write calls. -/
theorem writePlan_length (B : Blake2sFun) : (writePlan B).length = 18 := rfl

/-- If every write in the plan succeeds, the run appends the whole plan,
attempts exactly one call per element, and leaves the closed flag alone. -/
theorem runWrites_all_ok (fail : Nat → Bool) :
    ∀ (plan : List String) (st : FdState),
      (∀ j, j < plan.length → fail (st.attempts + j) = false) →
      runWrites fail plan st =
        .ok ⟨st.content ++ String.join plan, st.attempts + plan.length, st.closed⟩ := by
  intro plan
  induction plan with
  | nil =>
    intro st h
    simp [runWrites, String.join, String.append_empty]
  | cons s rest ih =>
    intro st h
    have h0 : fail st.attempts = false := by simpa using h 0 (by simp)
    have hshift : ∀ j, j < rest.length → fail (st.attempts + 1 + j) = false := by
      intro j hj
      have := h (j + 1) (by simp; omega)
      simpa [Nat.add_assoc, Nat.add_comm 1 j] using this
    simp only [runWrites, h0, Bool.false_eq_true, if_false]
    rw [ih _ hshift]
    simp only [Except.ok.injEq, FdState.mk.injEq, List.length_cons]
    refine ⟨?_, by omega, trivial⟩
    rw [strJoin_cons, String.append_assoc]

/-- If the writes succeed up to index `k` and the k-th write raises, the run
aborts with exactly the first `k` plan elements written, `k + 1` calls
attempted, and the closed flag untouched. -/
theorem runWrites_first_error (fail : Nat → Bool) :
    ∀ (plan : List String) (k : Nat) (st : FdState),
      k < plan.length → fail (st.attempts + k) = true →
      (∀ j, j < k → fail (st.attempts + j) = false) →
      runWrites fail plan st =
        .error ⟨st.content ++ String.join (plan.take k), st.attempts + k + 1, st.closed⟩ := by
  intro plan
  induction plan with
  | nil =>
    intro k st hk
    simp at hk
  | cons s rest ih =>
    intro k st hk hfk hmin
    cases k with
    | zero =>
      have h0 : fail st.attempts = true := by simpa using hfk
      simp [runWrites, h0, String.join, String.append_empty]
    | succ m =>
      have h0 : fail st.attempts = false := by simpa using hmin 0 (by omega)
      have hk' : m < rest.length := by simpa using Nat.lt_of_succ_lt_succ (by simpa using hk)
      have hfk' : fail (st.attempts + 1 + m) = true := by
        simpa [Nat.add_assoc, Nat.add_comm 1 m] using hfk
      have hmin' : ∀ j, j < m → fail (st.attempts + 1 + j) = false := by
        intro j hj
        have := hmin (j + 1) (by omega)
        simpa [Nat.add_assoc, Nat.add_comm 1 j] using this
      simp only [runWrites, h0, Bool.false_eq_true, if_false]
      rw [ih m _ hk' hfk' hmin']
      simp only [Except.error.injEq, FdState.mk.injEq, List.take_succ_cons]
      refine ⟨?_, by omega, trivial⟩
      rw [strJoin_cons, String.append_assoc]

deriving instance DecidableEq for Except

/-- Unfolding lemma for `String.join` on the empty list. -/
theorem strJoin_nil : String.join ([] : List String) = "" := rfl

/-- Merging a lone comma with a following newline into the two-character
separator. -/
theorem commaNL (x : String) : ("," : String) ++ ("\n" ++ x) = ",\n" ++ x := by
  rw [← String.append_assoc]
  exact congrArg (fun s => s ++ x) rfl

/-- Merging the final newline with the closing bracket. -/
theorem nlBracket : ("\n" : String) ++ "]" = "\n]" := rfl

/-- Flattened hex encoding has two characters per byte. -/
theorem flatten_hexByte_length (bs : List Nat) :
    ((bs.map hexByte).flatten).length = 2 * bs.length := by
  induction bs with
  | nil => rfl
  | cons b rest ih =>
    simp [hexByte, ih]
    omega

/-- Hex encoding of a nonempty byte string is a nonempty string. -/
theorem bytesHex_ne_empty (bs : List Nat) (h : bs ≠ []) : bytesHex bs ≠ "" := by
  intro hc
  have hlen := congrArg String.length hc
  rw [bytesHex, String.length_mk, flatten_hexByte_length, String.length_empty] at hlen
  cases bs with
  | nil => exact h rfl
  | cons b rest => simp at hlen

/-- Hex decoding the fixed key string gives back the 32 key bytes. -/
theorem hexDecode_key : hexDecode (bytesHex key_bytes) = key_bytes :=
  hexDecode_bytesHex _ fun b hb => lt_trans (byteRange_lt 32 b hb) (by norm_num)

/-! ### Claims -/

/-- C1: every generated record's `out` field is the hex encoding of the digest
the BLAKE2s collaborator returns for the empty message under the record's own
key, salt and persona (obtained by hex-decoding the record's `key`, `salt`
and `persona` fields; the empty string decodes to the empty byte string).
This holds for any collaborator `B`, i.e. with BLAKE2s treated as an
external, already-correct function. -/
theorem record_out_matches_params (B : Blake2sFun) (t : TestCase)
    (h : t ∈ records B) :
    t.out = bytesHex (B [] (hexDecode t.key) (hexDecode t.salt) (hexDecode t.persona)) := by
  simp only [records, List.mem_append, List.mem_map, List.mem_range] at h
  rcases h with ⟨i, hi, rfl⟩ | ⟨i, hi, rfl⟩
  · have hsalt : hexDecode (bytesHex (byteRange (i + 1))) = byteRange (i + 1) :=
      hexDecode_bytesHex _ fun b hb => lt_of_lt_of_le (byteRange_lt _ b hb) (by omega)
    show bytesHex (B [] key_bytes (byteRange (i + 1)) []) =
      bytesHex (B [] (hexDecode (bytesHex key_bytes))
        (hexDecode (bytesHex (byteRange (i + 1)))) (hexDecode ""))
    rw [hexDecode_key, hsalt]
    rfl
  · have hpers : hexDecode (bytesHex (byteRange (i + 1))) = byteRange (i + 1) :=
      hexDecode_bytesHex _ fun b hb => lt_of_lt_of_le (byteRange_lt _ b hb) (by omega)
    show bytesHex (B [] key_bytes [] (byteRange (i + 1))) =
      bytesHex (B [] (hexDecode (bytesHex key_bytes)) (hexDecode "")
        (hexDecode (bytesHex (byteRange (i + 1)))))
    rw [hexDecode_key, hpers]
    rfl

/-- Witness for C1 at the first salt-sweep record of a concrete
collaborator. -/
theorem record_out_matches_params_witness :
    (saltTest Bzero 0).out = bytesHex (Bzero [] (hexDecode (saltTest Bzero 0).key)
      (hexDecode (saltTest Bzero 0).salt) (hexDecode (saltTest Bzero 0).persona)) :=
  record_out_matches_params Bzero (saltTest Bzero 0) (by decide)

/-- C2: a successful run (any invocation carrying a path argument) writes the
serialization of `records B` to the file at the given path; that list has
exactly 16 entries, the 8 salt-sweep records at positions 0..7 in ascending
`i` order followed by the 8 persona-sweep records at positions 8..15 in
ascending `i` order. The whole run is a pure function of the collaborator
`B`, so the order is deterministic. -/
theorem records_ordered_sixteen (B : Blake2sFun) :
    (records B).length = 16 ∧
      (∀ i, i < 8 → (records B).getD i default = saltTest B i ∧
        (records B).getD (8 + i) default = personaTest B i) ∧
      ∀ prog path rest, fileContent (progMain B (prog :: path :: rest)) = some (output B) := by
  refine ⟨rfl, ?_, fun prog path rest => rfl⟩
  intro i h
  interval_cases i <;> exact ⟨rfl, rfl⟩

/-- Witness for C2 at position 2 of both sweeps. -/
theorem records_ordered_sixteen_witness :
    (records Bzero).getD 2 default = saltTest Bzero 2 ∧
      (records Bzero).getD 10 default = personaTest Bzero 2 :=
  (records_ordered_sixteen Bzero).2.1 2 (by decide)

/-- C3: in each of the first 8 records the `persona` field is empty and the
`salt` field is a nonempty string hex-decoding to the bytes 0..i (length
i+1); in each of the last 8 records the roles are swapped. In particular
exactly one of `salt`/`persona` is nonempty in every record. -/
theorem one_sweep_field_nonempty (B : Blake2sFun) (i : Nat) (h : i < 8) :
    (((records B).getD i default).persona = "" ∧
      hexDecode ((records B).getD i default).salt = List.range (i + 1) ∧
      ((records B).getD i default).salt ≠ "") ∧
    (((records B).getD (8 + i) default).salt = "" ∧
      hexDecode ((records B).getD (8 + i) default).persona = List.range (i + 1) ∧
      ((records B).getD (8 + i) default).persona ≠ "") := by
  have hdec : ∀ n, n < 8 → hexDecode (bytesHex (byteRange (n + 1))) = List.range (n + 1) :=
    fun n hn => hexDecode_bytesHex _ fun b hb => lt_of_lt_of_le (byteRange_lt _ b hb) (by omega)
  interval_cases i <;>
    exact ⟨⟨rfl, hdec _ (by decide), bytesHex_ne_empty _ (by decide)⟩,
      ⟨rfl, hdec _ (by decide), bytesHex_ne_empty _ (by decide)⟩⟩

/-- Witness for C3 at sweep position 5. -/
theorem one_sweep_field_nonempty_witness :
    (((records Bzero).getD 5 default).persona = "" ∧
      hexDecode ((records Bzero).getD 5 default).salt = List.range 6 ∧
      ((records Bzero).getD 5 default).salt ≠ "") ∧
    (((records Bzero).getD 13 default).salt = "" ∧
      hexDecode ((records Bzero).getD 13 default).persona = List.range 6 ∧
      ((records Bzero).getD 13 default).persona ≠ "") :=
  one_sweep_field_nonempty Bzero 5 (by decide)

/-- C4: every generated record has `hash` equal to the constant string
"blake2s", an empty `in` field, and a `key` field that hex-decodes to the
32-byte sequence 0, 1, …, 31 — the same for all records. -/
theorem record_constant_fields (B : Blake2sFun) (t : TestCase) (h : t ∈ records B) :
    t.hash = "blake2s" ∧ t.in_ = "" ∧ hexDecode t.key = List.range 32 := by
  simp only [records, List.mem_append, List.mem_map, List.mem_range] at h
  rcases h with ⟨i, hi, rfl⟩ | ⟨i, hi, rfl⟩ <;> exact ⟨rfl, rfl, hexDecode_key⟩

/-- Witness for C4 at the second persona-sweep record of a concrete
collaborator. -/
theorem record_constant_fields_witness :
    (personaTest Bzero 1).hash = "blake2s" ∧ (personaTest Bzero 1).in_ = "" ∧
      hexDecode (personaTest Bzero 1).key = List.range 32 :=
  record_constant_fields Bzero (personaTest Bzero 1) (by decide)

/-- C5: the written file content is a single JSON array: an opening bracket,
the 16 serialized records joined by commas (each separator between two
consecutive elements, hence no comma after the 16th element), and a closing
bracket. -/
theorem output_is_json_array (B : Blake2sFun) :
    output B = "[\n" ++ sepByCommaNL ((records B).map jsonDumps) ++ "\n]" ∧
      ((records B).map jsonDumps).length = 16 := by
  have hrange : List.range 8 = [0, 1, 2, 3, 4, 5, 6, 7] := rfl
  refine ⟨?_, rfl⟩
  simp only [output, writePlan, records, hrange, List.map_cons, List.map_nil,
    List.map_append, List.cons_append, List.nil_append, strJoin_cons, strJoin_nil,
    sepByCommaNL, String.append_assoc, String.append_empty, String.empty_append,
    Nat.reduceLT, reduceIte, commaNL, nlBracket]

/-- C6: invoking the program with fewer than two argv entries (that is, zero
path arguments after the program name) prints the usage string and a newline
to standard output, exits with status code 1, and writes no file. -/
theorem usage_on_missing_argument (B : Blake2sFun) (argv : List String)
    (h : argv.length < 2) :
    progMain B argv = ⟨usageMsg ++ "\n", 1, none⟩ := by
  match argv with
  | [] => rfl
  | [_] => rfl
  | _ :: _ :: _ => simp at h; omega

/-- Witness for C6 on an argv holding only the program name. -/
theorem usage_on_missing_argument_witness :
    progMain Bzero ["gen_vectors.py"] = ⟨usageMsg ++ "\n", 1, none⟩ :=
  usage_on_missing_argument Bzero ["gen_vectors.py"] (by decide)

/-- C7: two runs against the same output path write byte-identical content,
namely `output B`; the content is a function of the collaborator alone, with
no dependence on time, randomness or environment (none of which the model
even consumes). -/
theorem runs_are_idempotent (B : Blake2sFun) (prog1 prog2 path : String)
    (rest1 rest2 : List String) :
    fileContent (progMain B (prog1 :: path :: rest1)) = some (output B) ∧
      fileContent (progMain B (prog2 :: path :: rest2)) =
        fileContent (progMain B (prog1 :: path :: rest1)) :=
  ⟨rfl, rfl⟩

/-- Counterexample to C8: it is not true that the handle is closed on every
execution path — with a collaborator and a write oracle under which the
fourth write raises, `main` exits with the handle still open, because
`fd.close()` sits after the loops with no try/finally or `with` block
guarding it. -/
theorem close_not_guaranteed : ¬ (∀ (B : Blake2sFun) (fail : Nat → Bool),
    resultClosed (mainFallible B fail) = true) := by
  intro h
  have := h Bzero (fun k => k == 3)
  revert this
  decide

/-- C8 (amended): on the execution path where every one of the 18 writes
succeeds, the handle is closed before `main` returns, with the full output
written; when a write raises, `main` exits by exception without reaching
`fd.close()` (see the counterexample). -/
theorem close_on_success (B : Blake2sFun) (fail : Nat → Bool)
    (h : ∀ k, k < 18 → fail k = false) :
    mainFallible B fail = .ok ⟨output B, 18, true⟩ := by
  unfold mainFallible
  rw [runWrites_all_ok fail (writePlan B) ⟨"", 0, false⟩
    (fun j hj => by simpa using h j (by simpa [writePlan_length B] using hj))]
  simp [String.empty_append, output, writePlan_length]

/-- Witness for the amended C8 with an all-succeeding write oracle. -/
theorem close_on_success_witness :
    mainFallible Bzero (fun _ => false) = .ok ⟨output Bzero, 18, true⟩ :=
  close_on_success Bzero (fun _ => false) (by decide)

/-- C9: an I/O error is never caught: if the `open` raises, the program ends
in the error outcome with nothing written and nothing attempted; if the first
failing write is the k-th, the program ends in the error outcome having
attempted exactly the first k+1 writes (each at most once — no retry) with
exactly the first k plan elements written, and no handler intervenes on the
way to the process boundary. -/
theorem io_error_propagates (B : Blake2sFun) (fail : Nat → Bool) (k : Nat)
    (hk : k < 18) (hf : fail k = true) (hmin : ∀ j, j < k → fail j = false) :
    fallibleProg B false fail =
        .error ⟨String.join ((writePlan B).take k), k + 1, false⟩ ∧
      fallibleProg B true fail = .error ⟨"", 0, false⟩ := by
  constructor
  · show mainFallible B fail = _
    unfold mainFallible
    rw [runWrites_first_error fail (writePlan B) k ⟨"", 0, false⟩
      (by simpa [writePlan_length B] using hk) (by simpa using hf)
      (fun j hj => by simpa using hmin j hj)]
    simp [String.empty_append]
  · rfl

/-- Witness for C9 with the very first write raising. -/
theorem io_error_propagates_witness :
    fallibleProg Bzero false (fun n => n == 0) =
        .error ⟨String.join ((writePlan Bzero).take 0), 0 + 1, false⟩ ∧
      fallibleProg Bzero true (fun n => n == 0) = .error ⟨"", 0, false⟩ :=
  io_error_propagates Bzero (fun n => n == 0) 0 (by decide) (by decide)
    (fun j hj => absurd hj (by omega))

/-- C10: the byte content written to the output file does not depend on the
path argument (or on anything else in argv): any two invocations that carry a
path argument write identical bytes. -/
theorem content_independent_of_path (B : Blake2sFun)
    (prog1 path1 prog2 path2 : String) (rest1 rest2 : List String) :
    fileContent (progMain B (prog1 :: path1 :: rest1)) =
      fileContent (progMain B (prog2 :: path2 :: rest2)) := rfl
